import Mathlib

/-!
Verification development for the spectrum repository: a shallow embedding of
the result-cache-and-comparison engine and of the web client state stores,
with theorems settling the specified properties.

Numeric article scores are embedded as rationals; times as natural numbers
(milliseconds); JavaScript Set values as Finset String; the zustand stores as
pure state-transition functions over lists.
-/

namespace Spectrum

/-! ## Data model (from src/unnamed/part_013, types matching backend schemas) -/

structure PoliticalLeaning where
  score : ℚ
  confidence : ℚ
  reasoning : String
deriving DecidableEq, Repr

structure TopicAnalysis where
  primary_topic : String
  secondary_topics : List String
  keywords : List String
  entities : List String
deriving DecidableEq, Repr

structure ArticleAnalysis where
  article_id : String
  article_url : String
  article_title : String
  source_name : String
  political_leaning : PoliticalLeaning
  topics : TopicAnalysis
  analyzed_at : String
  cached : Bool
deriving DecidableEq, Repr

/-! ## Spectrum color utilities
(from src/spectrum-web/src/features/spectrum/utils/spectrumColors.ts) -/

inductive PoliticalLabel where
  | farLeft
  | left
  | slightLeft
  | center
  | slightRight
  | right
  | farRight
deriving DecidableEq, Repr

/-- Get political label from score (-1 to 1). -/
def getLabel (score : ℚ) : PoliticalLabel :=
  if score ≤ -(6/10) then .farLeft
  else if score ≤ -(3/10) then .left
  else if score ≤ -(1/10) then .slightLeft
  else if score ≤ 1/10 then .center
  else if score ≤ 3/10 then .slightRight
  else if score ≤ 6/10 then .right
  else .farRight

/-- Get color for a political score. -/
def getColor (score : ℚ) : String :=
  if score ≤ -(6/10) then "#1e40af"
  else if score ≤ -(3/10) then "#2563eb"
  else if score ≤ -(1/10) then "#3b82f6"
  else if score ≤ 1/10 then "#64748b"
  else if score ≤ 3/10 then "#f59e0b"
  else if score ≤ 6/10 then "#f97316"
  else "#ea580c"

/-- Position of a label along the order Far Left < Left < Slight Left <
Center < Slight Right < Right < Far Right. -/
def labelIdx : PoliticalLabel → Nat
  | .farLeft => 0
  | .left => 1
  | .slightLeft => 2
  | .center => 3
  | .slightRight => 4
  | .right => 5
  | .farRight => 6

/-- Index of the bucket the two if-chains of spectrumColors.ts select. -/
def bucketIdx (score : ℚ) : Nat :=
  if score ≤ -(6/10) then 0
  else if score ≤ -(3/10) then 1
  else if score ≤ -(1/10) then 2
  else if score ≤ 1/10 then 3
  else if score ≤ 3/10 then 4
  else if score ≤ 6/10 then 5
  else 6

def labelOfIdx : Nat → PoliticalLabel
  | 0 => .farLeft
  | 1 => .left
  | 2 => .slightLeft
  | 3 => .center
  | 4 => .slightRight
  | 5 => .right
  | _ => .farRight

def colorOfIdx : Nat → String
  | 0 => "#1e40af"
  | 1 => "#2563eb"
  | 2 => "#3b82f6"
  | 3 => "#64748b"
  | 4 => "#f59e0b"
  | 5 => "#f97316"
  | _ => "#ea580c"

lemma getLabel_eq_bucket (s : ℚ) : getLabel s = labelOfIdx (bucketIdx s) := by
  unfold getLabel bucketIdx
  split_ifs <;> rfl

lemma getColor_eq_bucket (s : ℚ) : getColor s = colorOfIdx (bucketIdx s) := by
  unfold getColor bucketIdx
  split_ifs <;> rfl

lemma bucketIdx_le_six (s : ℚ) : bucketIdx s ≤ 6 := by
  unfold bucketIdx
  split_ifs <;> omega

lemma labelOfIdx_inj : ∀ i ≤ 6, ∀ j ≤ 6, (labelOfIdx i = labelOfIdx j ↔ i = j) := by
  decide

lemma colorOfIdx_inj : ∀ i ≤ 6, ∀ j ≤ 6, (colorOfIdx i = colorOfIdx j ↔ i = j) := by
  decide

set_option maxHeartbeats 2000000 in
/-- C10: getLabel is total into the seven labels by type; it is monotone
non-decreasing along the label order, the bucket boundaries are at -0.6,
-0.3, -0.1, 0.1, 0.3, 0.6 with a boundary score falling into the lower
bucket, and getColor uses exactly the same bucketing: two scores receive the
same label exactly when they receive the same color. -/
theorem getLabel_getColor_bucketing :
    (∀ s t : ℚ, s ≤ t → labelIdx (getLabel s) ≤ labelIdx (getLabel t)) ∧
    (getLabel (-(6/10)) = .farLeft ∧ getLabel (-(3/10)) = .left ∧
      getLabel (-(1/10)) = .slightLeft ∧ getLabel (1/10) = .center ∧
      getLabel (3/10) = .slightRight ∧ getLabel (6/10) = .right ∧
      getLabel 1 = .farRight) ∧
    (∀ s t : ℚ, getLabel s = getLabel t ↔ getColor s = getColor t) := by
  refine ⟨?_, ⟨?_, ?_, ?_, ?_, ?_, ?_, ?_⟩, ?_⟩
  · intro s t hst
    unfold getLabel
    split_ifs <;> first | (simp only [labelIdx]; omega) | linarith
  · norm_num [getLabel]
  · norm_num [getLabel]
  · norm_num [getLabel]
  · norm_num [getLabel]
  · norm_num [getLabel]
  · norm_num [getLabel]
  · norm_num [getLabel]
  · intro s t
    rw [getLabel_eq_bucket s, getLabel_eq_bucket t, getColor_eq_bucket s,
      getColor_eq_bucket t,
      labelOfIdx_inj _ (bucketIdx_le_six s) _ (bucketIdx_le_six t),
      colorOfIdx_inj _ (bucketIdx_le_six s) _ (bucketIdx_le_six t)]

/-- Witness for C10: the monotonicity part applied at scores 0 and 1/2. -/
theorem getLabel_getColor_bucketing_witness :
    labelIdx (getLabel 0) ≤ labelIdx (getLabel (1/2)) :=
  getLabel_getColor_bucketing.1 0 (1/2) (by norm_num)

/-! ## Comparison selection store
(from src/spectrum-web/src/stores/useComparisonStore.ts) -/

def addArticle (selectedArticles : List ArticleAnalysis)
    (article : ArticleAnalysis) : List ArticleAnalysis :=
  if 5 ≤ selectedArticles.length then selectedArticles
  else if selectedArticles.any (fun a => a.article_id == article.article_id) then
    selectedArticles
  else selectedArticles ++ [article]

def removeArticle (selectedArticles : List ArticleAnalysis)
    (articleId : String) : List ArticleAnalysis :=
  selectedArticles.filter (fun a => !(a.article_id == articleId))

def clearArticles : List ArticleAnalysis := []

def isSelected (selectedArticles : List ArticleAnalysis) (articleId : String) : Bool :=
  selectedArticles.any (fun a => a.article_id == articleId)

/-- One public operation of the comparison store. -/
inductive StoreOp where
  | add (article : ArticleAnalysis)
  | remove (articleId : String)
  | clear

def applyStoreOp (s : List ArticleAnalysis) : StoreOp → List ArticleAnalysis
  | .add a => addArticle s a
  | .remove i => removeArticle s i
  | .clear => clearArticles

/-- The store state after a sequence of operations on the initial empty
selection. -/
def runStoreOps (ops : List StoreOp) : List ArticleAnalysis :=
  ops.foldl applyStoreOp []

/-- Gating of the compare action (ComparisonTray: canCompare, and the
disabled flag of the compare button). -/
def canCompare (s : List ArticleAnalysis) : Bool := decide (2 ≤ s.length)

def compareButtonEnabled (s : List ArticleAnalysis) (isComparing : Bool) : Bool :=
  canCompare s && !isComparing

/-! ## Error taxonomy (from the errors module re-exported by the api client) -/

inductive ErrorCode where
  | BLOCKED_SOURCE
  | NETWORK_ERROR
  | CONTENT_EXTRACTION
  | NOT_FOUND
  | RATE_LIMITED
  | AI_ERROR
  | VALIDATION
  | INTERNAL_ERROR
deriving DecidableEq, Repr

/-- Modelled from the spec: the backend comparison endpoint is not part of
src, only its client; section 6 exposes compareMany over 2..5 urls and
section 7 lists ValidationError for fewer than 2 URLs in a comparison. -/
def validateCompareUrls (urls : List String) : Except ErrorCode (List String) :=
  if urls.length < 2 then .error .VALIDATION else .ok urls

lemma addArticle_length_le (s : List ArticleAnalysis) (a : ArticleAnalysis)
    (hs : s.length ≤ 5) : (addArticle s a).length ≤ 5 := by
  unfold addArticle
  split_ifs with h1 h2
  · exact hs
  · exact hs
  · simp only [List.length_append, List.length_singleton]
    omega

lemma applyStoreOp_length_le (s : List ArticleAnalysis) (op : StoreOp)
    (hs : s.length ≤ 5) : (applyStoreOp s op).length ≤ 5 := by
  cases op with
  | add a => exact addArticle_length_le s a hs
  | remove i =>
    exact le_trans (List.length_filter_le _ _) hs
  | clear => simp [applyStoreOp, clearArticles]

lemma foldl_storeOp_length_le (ops : List StoreOp) :
    ∀ s : List ArticleAnalysis, s.length ≤ 5 →
      (ops.foldl applyStoreOp s).length ≤ 5 := by
  induction ops with
  | nil => intro s hs; exact hs
  | cons op rest ih =>
    intro s hs
    exact ih _ (applyStoreOp_length_le s op hs)

lemma addArticle_nodup (s : List ArticleAnalysis) (a : ArticleAnalysis)
    (hs : (s.map (·.article_id)).Nodup) :
    ((addArticle s a).map (·.article_id)).Nodup := by
  unfold addArticle
  split_ifs with h1 h2
  · exact hs
  · exact hs
  · rw [List.map_append]
    simp only [List.map_cons, List.map_nil]
    rw [List.nodup_append]
    refine ⟨hs, List.nodup_singleton _, ?_⟩
    intro x hx
    simp only [List.mem_singleton]
    intro hxa
    apply h2
    rw [List.any_eq_true]
    obtain ⟨y, hy, hyx⟩ := List.mem_map.mp hx
    exact ⟨y, hy, by simp [hyx, hxa]⟩

lemma applyStoreOp_nodup (s : List ArticleAnalysis) (op : StoreOp)
    (hs : (s.map (·.article_id)).Nodup) :
    ((applyStoreOp s op).map (·.article_id)).Nodup := by
  cases op with
  | add a => exact addArticle_nodup s a hs
  | remove i =>
    exact ((List.filter_sublist s).map _).nodup hs
  | clear => simp [applyStoreOp, clearArticles]

lemma foldl_storeOp_nodup (ops : List StoreOp) :
    ∀ s : List ArticleAnalysis, (s.map (·.article_id)).Nodup →
      ((ops.foldl applyStoreOp s).map (·.article_id)).Nodup := by
  induction ops with
  | nil => intro s hs; exact hs
  | cons op rest ih =>
    intro s hs
    exact ih _ (applyStoreOp_nodup s op hs)

/-- C8: across every operation sequence the selection holds at most one
entry per article id; adding an already selected id leaves the state
unchanged; removeArticle drops exactly the entries with the given id; and
isSelected answers whether some selected article has the id. -/
theorem comparison_store_invariants :
    (∀ ops : List StoreOp, ((runStoreOps ops).map (·.article_id)).Nodup) ∧
    (∀ s a, (∃ x ∈ s, x.article_id = a.article_id) → addArticle s a = s) ∧
    (∀ s aid x, x ∈ removeArticle s aid ↔ x ∈ s ∧ x.article_id ≠ aid) ∧
    (∀ s aid, isSelected s aid = true ↔ ∃ x ∈ s, x.article_id = aid) := by
  refine ⟨?_, ?_, ?_, ?_⟩
  · intro ops
    exact foldl_storeOp_nodup ops [] (by simp)
  · intro s a ⟨x, hx, hxa⟩
    unfold addArticle
    split_ifs with h1 h2
    · rfl
    · rfl
    · exact absurd (List.any_eq_true.mpr ⟨x, hx, by simp [hxa]⟩) h2
  · intro s aid x
    unfold removeArticle
    rw [List.mem_filter]
    simp
  · intro s aid
    unfold isSelected
    rw [List.any_eq_true]
    simp

/-- Sample analyzed article used by concrete witnesses. -/
def mkArticle (aid : String) (score : ℚ) (primary : String)
    (secondary : List String) (src : String) : ArticleAnalysis :=
  { article_id := aid
    article_url := "https://example.com/" ++ aid
    article_title := "title " ++ aid
    source_name := src
    political_leaning := { score := score, confidence := 9/10, reasoning := "r" }
    topics := { primary_topic := primary, secondary_topics := secondary,
                keywords := [], entities := [] }
    analyzed_at := "2025-01-01T00:00:00Z"
    cached := false }

/-- Witness for C8: adding an article whose id is already selected leaves
the concrete one-element selection unchanged, and isSelected answers
membership there. -/
theorem comparison_store_invariants_witness :
    addArticle [mkArticle "a1" 0 "t" [] "s"] (mkArticle "a1" (1/2) "u" [] "s2")
      = [mkArticle "a1" 0 "t" [] "s"] ∧
    (∃ x ∈ [mkArticle "a1" 0 "t" [] "s"], x.article_id = "a1") :=
  ⟨comparison_store_invariants.2.1 _ _ ⟨mkArticle "a1" 0 "t" [] "s", by simp, rfl⟩,
   (comparison_store_invariants.2.2.2 [mkArticle "a1" 0 "t" [] "s"] "a1").mp (by rfl)⟩

/-- C6: the selection can never grow beyond 5 articles, addArticle on a
full selection is the identity, the compare action is enabled only with at
least 2 selected articles, and a comparison request with fewer than 2 urls
is exactly the validation error. -/
theorem comparison_request_bounds :
    (∀ ops : List StoreOp, (runStoreOps ops).length ≤ 5) ∧
    (∀ s a, 5 ≤ s.length → addArticle s a = s) ∧
    (∀ s isComparing, compareButtonEnabled s isComparing = true → 2 ≤ s.length) ∧
    (∀ urls : List String,
      validateCompareUrls urls = .error .VALIDATION ↔ urls.length < 2) := by
  refine ⟨?_, ?_, ?_, ?_⟩
  · intro ops
    exact foldl_storeOp_length_le ops [] (by simp)
  · intro s a h
    unfold addArticle
    rw [if_pos h]
  · intro s isComparing h
    unfold compareButtonEnabled canCompare at h
    simp only [Bool.and_eq_true, decide_eq_true_eq] at h
    exact h.1
  · intro urls
    unfold validateCompareUrls
    split_ifs with h
    · simp [h]
    · simp [h]

/-- Witness for C6: addArticle on a concrete full selection of 5 is the
identity, and the enabled compare button on a 2-element selection implies
at least 2 selected. -/
theorem comparison_request_bounds_witness :
    addArticle
      [mkArticle "a" 0 "t" [] "s", mkArticle "b" 0 "t" [] "s",
       mkArticle "c" 0 "t" [] "s", mkArticle "d" 0 "t" [] "s",
       mkArticle "e" 0 "t" [] "s"] (mkArticle "f" 0 "t" [] "s")
      = [mkArticle "a" 0 "t" [] "s", mkArticle "b" 0 "t" [] "s",
         mkArticle "c" 0 "t" [] "s", mkArticle "d" 0 "t" [] "s",
         mkArticle "e" 0 "t" [] "s"] ∧
    2 ≤ ([mkArticle "a" 0 "t" [] "s", mkArticle "b" 0 "t" [] "s"] : List ArticleAnalysis).length :=
  ⟨comparison_request_bounds.2.1 _ _ (by simp),
   comparison_request_bounds.2.2.1 _ false (by rfl)⟩

/-! ## Search history store
(from src/spectrum-web/src/stores/useSearchHistory.ts) -/

structure SearchHistoryItem where
  url : String
  title : Option String
  source : Option String
  searchedAt : String
  success : Bool
  errorMessage : Option String
deriving DecidableEq, Repr

/-- Argument of addToHistory: a SearchHistoryItem without searchedAt. -/
structure SearchHistoryInput where
  url : String
  title : Option String
  source : Option String
  success : Bool
  errorMessage : Option String
deriving DecidableEq, Repr

def MAX_HISTORY_ITEMS : Nat := 10

/-- The item addToHistory stores: the input stamped with the current time. -/
def stampItem (item : SearchHistoryInput) (now : String) : SearchHistoryItem :=
  { url := item.url, title := item.title, source := item.source,
    searchedAt := now, success := item.success,
    errorMessage := item.errorMessage }

def addToHistory (history : List SearchHistoryItem) (item : SearchHistoryInput)
    (now : String) : List SearchHistoryItem :=
  let filteredHistory := history.filter (fun h => !(h.url == item.url))
  let newItem := stampItem item now
  (newItem :: filteredHistory).take MAX_HISTORY_ITEMS

def removeFromHistory (history : List SearchHistoryItem) (url : String) :
    List SearchHistoryItem :=
  history.filter (fun h => !(h.url == url))

def clearHistory : List SearchHistoryItem := []

/-- One public operation of the search history store. -/
inductive HistoryOp where
  | add (item : SearchHistoryInput) (now : String)
  | remove (url : String)
  | clear

def applyHistoryOp (h : List SearchHistoryItem) : HistoryOp → List SearchHistoryItem
  | .add item now => addToHistory h item now
  | .remove url => removeFromHistory h url
  | .clear => clearHistory

/-- The history after a sequence of operations on the initial empty store. -/
def runHistoryOps (ops : List HistoryOp) : List SearchHistoryItem :=
  ops.foldl applyHistoryOp []

lemma addToHistory_eq (history : List SearchHistoryItem)
    (item : SearchHistoryInput) (now : String) :
    addToHistory history item now =
      stampItem item now ::
        (history.filter (fun h => !(h.url == item.url))).take 9 := by
  unfold addToHistory MAX_HISTORY_ITEMS
  rfl

lemma addToHistory_nodup (history : List SearchHistoryItem)
    (item : SearchHistoryInput) (now : String)
    (hn : (history.map (·.url)).Nodup) :
    ((addToHistory history item now).map (·.url)).Nodup := by
  rw [addToHistory_eq]
  simp only [List.map_cons, List.nodup_cons]
  constructor
  · intro hmem
    obtain ⟨x, hx, hxu⟩ := List.mem_map.mp hmem
    have hxf := (List.take_sublist 9 _).mem hx
    have := (List.mem_filter.mp hxf).2
    simp only [Bool.not_eq_eq_eq_not, Bool.not_true, beq_eq_false_iff_ne,
      ne_eq] at this
    exact this (by simpa [stampItem] using hxu)
  · exact (((List.take_sublist 9 _).map _).trans
      ((List.filter_sublist _).map _)).nodup hn

lemma applyHistoryOp_nodup (h : List SearchHistoryItem) (op : HistoryOp)
    (hn : (h.map (·.url)).Nodup) :
    ((applyHistoryOp h op).map (·.url)).Nodup := by
  cases op with
  | add item now => exact addToHistory_nodup h item now hn
  | remove url => exact ((List.filter_sublist h).map _).nodup hn
  | clear => simp [applyHistoryOp, clearHistory]

lemma foldl_historyOp_nodup (ops : List HistoryOp) :
    ∀ h : List SearchHistoryItem, (h.map (·.url)).Nodup →
      ((ops.foldl applyHistoryOp h).map (·.url)).Nodup := by
  induction ops with
  | nil => intro h hn; exact hn
  | cons op rest ih =>
    intro h hn
    exact ih _ (applyHistoryOp_nodup h op hn)

/-- C9: after every addToHistory the history has at most 10 entries, the new
entry sits at position 0, the remaining entries are the first 9 old entries
of other urls in their old relative order, at most one entry per url is kept
(the store only ever reaches states with pairwise distinct urls), and the
url uniqueness is preserved by the call. -/
theorem addToHistory_invariants :
    (∀ ops : List HistoryOp, ((runHistoryOps ops).map (·.url)).Nodup) ∧
    (∀ history item now,
      (addToHistory history item now).length ≤ 10 ∧
      (addToHistory history item now).head? = some (stampItem item now) ∧
      (addToHistory history item now).tail =
        (history.filter (fun h => !(h.url == item.url))).take 9 ∧
      (addToHistory history item now).tail.Sublist history ∧
      ((history.map (·.url)).Nodup →
        ((addToHistory history item now).map (·.url)).Nodup)) := by
  refine ⟨?_, ?_⟩
  · intro ops
    exact foldl_historyOp_nodup ops [] (by simp)
  · intro history item now
    refine ⟨?_, ?_, ?_, ?_, addToHistory_nodup history item now⟩
    · unfold addToHistory
      exact List.length_take_le _ _
    · rw [addToHistory_eq]
      rfl
    · rw [addToHistory_eq]
      rfl
    · rw [addToHistory_eq]
      exact (List.take_sublist 9 _).trans (List.filter_sublist _)

/-- Sample history input used by the concrete witness. -/
def sampleInput (url : String) : SearchHistoryInput :=
  { url := url, title := some "t", source := some "s", success := true,
    errorMessage := none }

/-- Witness for C9: the invariants applied to a concrete one-element history
whose urls are distinct. -/
theorem addToHistory_invariants_witness :
    ((addToHistory [stampItem (sampleInput "u1") "T0"] (sampleInput "u2") "T1").map
      (·.url)).Nodup :=
  ((addToHistory_invariants.2 [stampItem (sampleInput "u1") "T0"]
      (sampleInput "u2") "T1").2.2.2.2) (by simp [stampItem, sampleInput])

/-! ## Comparison view topic sets
(from src/spectrum-web/src/features/comparison/components/ComparisonView.tsx) -/

/-- The topic set the comparison view builds for one article:
new Set([primary_topic, ...secondary_topics]), raw strings. -/
def topicSetOf (a : ArticleAnalysis) : Finset String :=
  insert a.topics.primary_topic a.topics.secondary_topics.toFinset

/-- The commonTopics reduce of ComparisonView: fold intersection over the
topic sets, where an empty accumulator is replaced by the next set. -/
def commonTopics (articles : List ArticleAnalysis) : Finset String :=
  (articles.map topicSetOf).foldl
    (fun acc s => if acc = ∅ then s else acc ∩ s) ∅

/-- ASCII lower-casing of one character, used to state case normalization. -/
def lowerChar (c : Char) : Char :=
  if 65 ≤ c.toNat ∧ c.toNat ≤ 90 then Char.ofNat (c.toNat + 32) else c

/-- ASCII lower-casing of a string. -/
def lowerString (s : String) : String := ⟨s.data.map lowerChar⟩

/-- The topic set as the spec words it, for comparison with the code: the
case-normalized string set over primary and secondary topics. -/
def topicSetSpec (a : ArticleAnalysis) : Finset String :=
  (insert a.topics.primary_topic a.topics.secondary_topics.toFinset).image
    lowerString

/-- C4 counterexample: the view does not case-normalize (articles with
topics Economy and economy share no computed topic although their
case-normalized sets intersect), and with three articles of pairwise
disjoint topic sets the computed shared set is the entire topic set of the
third article instead of the empty intersection. -/
theorem commonTopics_claim_counterexample :
    commonTopics [mkArticle "a" 0 "Economy" [] "s1",
        mkArticle "b" 0 "economy" [] "s2"] = ∅ ∧
    topicSetSpec (mkArticle "a" 0 "Economy" [] "s1") ∩
        topicSetSpec (mkArticle "b" 0 "economy" [] "s2") = {"economy"} ∧
    commonTopics [mkArticle "x" 0 "t1" [] "s1", mkArticle "y" 0 "t2" [] "s2",
        mkArticle "z" 0 "t3" [] "s3"] = {"t3"} ∧
    topicSetOf (mkArticle "x" 0 "t1" [] "s1") ∩
        topicSetOf (mkArticle "y" 0 "t2" [] "s2") ∩
        topicSetOf (mkArticle "z" 0 "t3" [] "s3") = ∅ := by
  refine ⟨?_, ?_, ?_, ?_⟩ <;> decide

/-- C4 amended: each topic set used for comparison is the raw, case
sensitive set over primary and secondary topics, and for a comparison of
exactly two articles the computed shared topics equal the intersection of
those raw sets; with three or more articles the fold restarts from the next
set whenever the running intersection is empty, so it need not equal the
overall intersection. -/
theorem commonTopics_two_articles (a b : ArticleAnalysis) :
    commonTopics [a, b] = topicSetOf a ∩ topicSetOf b := by
  simp [commonTopics, topicSetOf]

/-! ## Overall comparison summary
(generateComparisonSummary from src/spectrum-web/src/stores/useSearchHistory.ts
appended App code, and spreadLabel from ComparisonSummary.tsx) -/

/-- Maximum of a score list; the empty case never arises in the claims. -/
def listMax : List ℚ → ℚ
  | [] => 0
  | x :: xs => xs.foldl max x

def listMin : List ℚ → ℚ
  | [] => 0
  | x :: xs => xs.foldl min x

def scoresOf (articles : List ArticleAnalysis) : List ℚ :=
  articles.map (fun a => a.political_leaning.score)

def spreadOf (articles : List ArticleAnalysis) : ℚ :=
  listMax (scoresOf articles) - listMin (scoresOf articles)

inductive SpreadBucket where
  | similar
  | moderate
  | significant
deriving DecidableEq, Repr

/-- Which of the three phrases generateComparisonSummary picks. -/
def summaryBucket (articles : List ArticleAnalysis) : SpreadBucket :=
  if spreadOf articles < 3/10 then .similar
  else if spreadOf articles < 6/10 then .moderate
  else .significant

def sourcesOf (articles : List ArticleAnalysis) : String :=
  String.intercalate ", " (articles.map (·.source_name))

def bucketPhrase : SpreadBucket → String → String
  | .similar, sources =>
    "The articles from " ++ sources ++ " share similar political perspectives."
  | .moderate, sources =>
    "The articles from " ++ sources ++ " show moderate differences in political framing."
  | .significant, sources =>
    "The articles from " ++ sources ++ " represent significantly different political viewpoints."

def generateComparisonSummary (articles : List ArticleAnalysis) : String :=
  if spreadOf articles < 3/10 then
    "The articles from " ++ sourcesOf articles ++ " share similar political perspectives."
  else if spreadOf articles < 6/10 then
    "The articles from " ++ sourcesOf articles ++ " show moderate differences in political framing."
  else
    "The articles from " ++ sourcesOf articles ++ " represent significantly different political viewpoints."

/-- The Low, Moderate, High spread label of ComparisonSummary.tsx. -/
def spreadLabel (leaningSpread : ℚ) : String :=
  if leaningSpread < 3/10 then "Low"
  else if leaningSpread < 6/10 then "Moderate"
  else "High"

/-- Concrete scenario articles with scores -0.6, 0.0, 0.6. -/
def scenarioArticles : List ArticleAnalysis :=
  [mkArticle "a" (-(3/5)) "t" [] "s1", mkArticle "b" 0 "t" [] "s2",
   mkArticle "c" (3/5) "t" [] "s3"]

lemma scenario_spread : spreadOf scenarioArticles = 6/5 := by
  unfold spreadOf scoresOf listMax listMin scenarioArticles mkArticle
  simp only [List.map_cons, List.map_nil, List.foldl_cons, List.foldl_nil]
  rw [max_eq_right (show (-(3/5) : ℚ) ≤ 0 by norm_num),
    max_eq_right (show (0 : ℚ) ≤ 3/5 by norm_num),
    min_eq_left (show (-(3/5) : ℚ) ≤ 0 by norm_num),
    min_eq_left (show (-(3/5) : ℚ) ≤ 3/5 by norm_num)]
  norm_num

/-- C5: the phrase generateComparisonSummary picks is a function of the
spread max minus min of the scores alone, bucketed at the fixed thresholds
0.3 and 0.6 with spread below 0.3 similar, below 0.6 moderate and at least
0.6 significant; spreadLabel uses the same thresholds; and the scenario
scores -0.6, 0.0, 0.6 give spread 1.2, landing in the significant bucket. -/
theorem overallSummary_spread_bucketing :
    (∀ l1 l2 : List ArticleAnalysis, spreadOf l1 = spreadOf l2 →
      summaryBucket l1 = summaryBucket l2) ∧
    (∀ articles, generateComparisonSummary articles =
      bucketPhrase (summaryBucket articles) (sourcesOf articles)) ∧
    (∀ articles,
      (summaryBucket articles = .similar ↔ spreadOf articles < 3/10) ∧
      (summaryBucket articles = .moderate ↔
        3/10 ≤ spreadOf articles ∧ spreadOf articles < 6/10) ∧
      (summaryBucket articles = .significant ↔ 6/10 ≤ spreadOf articles)) ∧
    (∀ d : ℚ,
      (spreadLabel d = "Low" ↔ d < 3/10) ∧
      (spreadLabel d = "Moderate" ↔ 3/10 ≤ d ∧ d < 6/10) ∧
      (spreadLabel d = "High" ↔ 6/10 ≤ d)) ∧
    (spreadOf scenarioArticles = 6/5 ∧
      summaryBucket scenarioArticles = .significant) := by
  refine ⟨?_, ?_, ?_, ?_, scenario_spread, ?_⟩
  · intro l1 l2 h
    unfold summaryBucket
    rw [h]
  · intro articles
    unfold generateComparisonSummary summaryBucket bucketPhrase
    split_ifs <;> rfl
  · intro articles
    unfold summaryBucket
    split_ifs with h1 h2
    · refine ⟨by simpa using h1, ?_, ?_⟩
      · simp only [reduceCtorEq, false_iff]
        rintro ⟨h3, h4⟩
        linarith
      · simp only [reduceCtorEq, false_iff]
        intro h3
        linarith
    · refine ⟨by simpa using h1, ?_, ?_⟩
      · simp only [true_iff]
        exact ⟨not_lt.mp h1, h2⟩
      · simp only [reduceCtorEq, false_iff]
        intro h3
        linarith
    · refine ⟨by simpa using h1, ?_, by simpa using not_lt.mp h2⟩
      simp only [reduceCtorEq, false_iff]
      rintro ⟨h3, h4⟩
      exact h2 h4
  · intro d
    unfold spreadLabel
    split_ifs with h1 h2
    · refine ⟨by simpa using h1, ?_, ?_⟩
      · constructor
        · intro hc
          exact absurd hc (by decide)
        · rintro ⟨h3, h4⟩
          linarith
      · constructor
        · intro hc
          exact absurd hc (by decide)
        · intro h3
          linarith
    · refine ⟨?_, ?_, ?_⟩
      · constructor
        · intro hc
          exact absurd hc (by decide)
        · intro h3
          exact absurd h3 h1
      · simpa using ⟨not_lt.mp h1, h2⟩
      · constructor
        · intro hc
          exact absurd hc (by decide)
        · intro h3
          linarith
    · refine ⟨?_, ?_, by simpa using not_lt.mp h2⟩
      · constructor
        · intro hc
          exact absurd hc (by decide)
        · intro h3
          exact absurd h3 h1
      · constructor
        · intro hc
          exact absurd hc (by decide)
        · rintro ⟨h3, h4⟩
          exact absurd h4 h2
  · unfold summaryBucket
    rw [scenario_spread]
    norm_num

/-- Concrete article pair whose spread also equals 6/5. -/
def scenarioPair : List ArticleAnalysis :=
  [mkArticle "p" (-(3/5)) "t" [] "s1", mkArticle "q" (3/5) "t" [] "s2"]

lemma scenarioPair_spread : spreadOf scenarioPair = 6/5 := by
  unfold spreadOf scoresOf listMax listMin scenarioPair mkArticle
  simp only [List.map_cons, List.map_nil, List.foldl_cons, List.foldl_nil]
  rw [max_eq_right (show (-(3/5) : ℚ) ≤ 3/5 by norm_num),
    min_eq_left (show (-(3/5) : ℚ) ≤ 3/5 by norm_num)]
  norm_num

/-- Witness for C5: two different concrete article lists with equal spread
receive the same bucket. -/
theorem overallSummary_spread_bucketing_witness :
    summaryBucket scenarioPair = summaryBucket scenarioArticles :=
  overallSummary_spread_bucketing.1 scenarioPair scenarioArticles
    (scenarioPair_spread.trans scenario_spread.symm)

/-! ## Structured API errors
(from the errors module re-exported by src/unnamed/part_013, the response
interceptor there, and ErrorMessage.tsx) -/

structure ApiErrorDetail where
  code : ErrorCode
  message : String
  suggestion : String
  retryable : Bool
deriving DecidableEq, Repr

structure SpectrumError where
  code : ErrorCode
  message : String
  suggestion : String
  retryable : Bool
deriving DecidableEq, Repr

/-- SpectrumError.fromApiResponse over the error detail of a structured
error response. -/
def fromApiResponse (d : ApiErrorDetail) : SpectrumError :=
  { code := d.code, message := d.message, suggestion := d.suggestion,
    retryable := d.retryable }

/-- SpectrumError.networkError; an empty message is falsy in the source and
replaced by the default text. -/
def networkError (message : String) : SpectrumError :=
  { code := .NETWORK_ERROR
    message := if message = "" then "Network connection failed" else message
    suggestion := "Check your connection and try again in a moment."
    retryable := true }

/-- SpectrumError.unknownError, likewise with a falsy default. -/
def unknownError (message : String) : SpectrumError :=
  { code := .INTERNAL_ERROR
    message := if message = "" then "An unexpected error occurred" else message
    suggestion := "Please try again."
    retryable := true }

/-- Shape of the body of a failed response as the interceptor inspects it:
a structured error response, a legacy detail object, or anything else. -/
inductive ResponseData where
  | structuredError (detail : ApiErrorDetail)
  | legacyDetail (detail : String)
  | other
deriving DecidableEq, Repr

/-- An axios failure: its message, and the response body when a response
was received at all. -/
structure AxiosFailure where
  message : String
  response : Option ResponseData
deriving DecidableEq, Repr

/-- The response interceptor of the api client: every transport failure is
converted to a SpectrumError before it reaches a caller. -/
def interceptError (error : AxiosFailure) : SpectrumError :=
  match error.response with
  | none => networkError error.message
  | some (.structuredError d) => fromApiResponse d
  | some (.legacyDetail s) => unknownError s
  | some .other => unknownError error.message

/-- The error value handed to ErrorMessage: structured or a plain Error. -/
inductive DisplayError where
  | structured (e : SpectrumError)
  | plain (message : String)
deriving DecidableEq, Repr

/-- The retryable flag ErrorMessage reads, defaulting to true for an
unstructured error. -/
def retryableOf : DisplayError → Bool
  | .structured e => e.retryable
  | .plain _ => true

/-- ErrorMessage shows the retry action when a retry handler was given and
the error is retryable. -/
def showRetry (onRetry : Bool) (error : DisplayError) : Bool :=
  onRetry && retryableOf error

/-- C7: the interceptor is total into SpectrumError, so a raw transport
error never propagates; a response-less failure becomes a retryable network
error; a structured backend error is converted keeping its code, message
and retryable flag; anything else becomes a retryable internal error; and
given a retry handler the retry action is shown exactly when the error is
retryable, with unstructured errors defaulting to retryable. -/
theorem api_errors_structured :
    (∀ e : AxiosFailure, e.response = none →
      (interceptError e).code = .NETWORK_ERROR ∧
      (interceptError e).retryable = true) ∧
    (∀ e : AxiosFailure, ∀ d, e.response = some (.structuredError d) →
      interceptError e = fromApiResponse d ∧
      (interceptError e).code = d.code ∧
      (interceptError e).message = d.message ∧
      (interceptError e).retryable = d.retryable) ∧
    (∀ e : AxiosFailure, (∀ d, e.response ≠ some (.structuredError d)) →
      e.response ≠ none →
      (interceptError e).code = .INTERNAL_ERROR ∧
      (interceptError e).retryable = true) ∧
    (∀ onRetry err, showRetry onRetry err = true ↔
      (onRetry = true ∧ retryableOf err = true)) ∧
    (∀ m, retryableOf (.plain m) = true) := by
  refine ⟨?_, ?_, ?_, ?_, fun m => rfl⟩
  · intro e he
    unfold interceptError
    rw [he]
    exact ⟨rfl, rfl⟩
  · intro e d he
    unfold interceptError
    rw [he]
    exact ⟨rfl, rfl, rfl, rfl⟩
  · intro e hnotstruct hnotnone
    unfold interceptError
    match hre : e.response with
    | none => exact absurd hre hnotnone
    | some (.structuredError d) => exact absurd hre (hnotstruct d)
    | some (.legacyDetail s) => exact ⟨rfl, rfl⟩
    | some .other => exact ⟨rfl, rfl⟩
  · intro onRetry err
    unfold showRetry
    simp

/-- Witness for C7: the interceptor applied to concrete failures of each
shape, and the retry gate on a concrete non-retryable structured error. -/
theorem api_errors_structured_witness :
    (interceptError ⟨"timeout", none⟩).code = .NETWORK_ERROR ∧
    (interceptError ⟨"", some (.structuredError
      ⟨.BLOCKED_SOURCE, "blocked", "try another source", false⟩)⟩).retryable = false ∧
    (interceptError ⟨"weird", some .other⟩).code = .INTERNAL_ERROR ∧
    showRetry true (.structured ⟨.AI_ERROR, "m", "s", true⟩) = true :=
  ⟨(api_errors_structured.1 ⟨"timeout", none⟩ rfl).1,
   by
    rw [(api_errors_structured.2.1 ⟨"", some (.structuredError
      ⟨.BLOCKED_SOURCE, "blocked", "try another source", false⟩)⟩
      ⟨.BLOCKED_SOURCE, "blocked", "try another source", false⟩ rfl).2.2.2],
   (api_errors_structured.2.2.1 ⟨"weird", some .other⟩
      (fun d h => by cases h) (fun h => by cases h)).1,
   (api_errors_structured.2.2.2.1 true
      (.structured ⟨.AI_ERROR, "m", "s", true⟩)).mpr ⟨rfl, rfl⟩⟩

/-! ## Keyed TTL store
Modelled from the spec: the backend cache implementation is not under src
(only design documents mention it); sections 3 and 4.1 give CacheEntry as
value, storedAt and ttl, owned by the store, with lazy expiry on read where
now minus storedAt at least ttl is treated as absent and evicted, and set
as last writer wins. Time is in integer milliseconds. -/

structure CacheEntry (V : Type) where
  value : V
  storedAt : Nat
  ttl : Nat
deriving DecidableEq, Repr

def TTLStore (V : Type) := String → Option (CacheEntry V)

def emptyStore (V : Type) : TTLStore V := fun _ => none

/-- Modelled from the spec: set stores the value stamped with the current
time; an existing entry is replaced, never mutated. -/
def setEntry {V : Type} (store : TTLStore V) (key : String) (v : V)
    (ttl now : Nat) : TTLStore V :=
  Function.update store key (some { value := v, storedAt := now, ttl := ttl })

/-- Modelled from the spec: get checks expiry lazily on read; an expired
entry is treated as absent and evicted. Returns the read result together
with the store after the read. -/
def getEntry {V : Type} (store : TTLStore V) (key : String) (now : Nat) :
    Option V × TTLStore V :=
  match store key with
  | none => (none, store)
  | some e =>
    if e.ttl ≤ now - e.storedAt then (none, Function.update store key none)
    else (some e.value, store)

/-- C2: an entry set with ttl T at time t0 is readable at every elapsed
time t below T, and at every elapsed time at least T the read reports it
absent and evicts it. -/
theorem ttl_correctness {V : Type} (store : TTLStore V) (key : String)
    (v : V) (T t0 t : Nat) :
    (t < T →
      (getEntry (setEntry store key v T t0) key (t0 + t)).1 = some v) ∧
    (T ≤ t →
      (getEntry (setEntry store key v T t0) key (t0 + t)).1 = none ∧
      (getEntry (setEntry store key v T t0) key (t0 + t)).2 key = none) := by
  have hread : (setEntry store key v T t0) key =
      some { value := v, storedAt := t0, ttl := T } :=
    Function.update_same _ _ _
  constructor
  · intro h
    unfold getEntry
    rw [hread]
    have hcond : ¬ T ≤ (t0 + t) - t0 := by omega
    simp only [hcond, if_false]
  · intro h
    unfold getEntry
    rw [hread]
    have hcond : T ≤ (t0 + t) - t0 := by omega
    simp only [hcond, if_true]
    exact ⟨by trivial, Function.update_same _ _ _⟩

/-- Witness for C2: a concrete entry with ttl 1000 stored at 5000 is
readable at elapsed time 999 and gone at elapsed time 1000. -/
theorem ttl_correctness_witness :
    (getEntry (setEntry (emptyStore Nat) "analysis:x" 42 1000 5000)
      "analysis:x" (5000 + 999)).1 = some 42 ∧
    (getEntry (setEntry (emptyStore Nat) "analysis:x" 42 1000 5000)
      "analysis:x" (5000 + 1000)).1 = none :=
  ⟨(ttl_correctness (emptyStore Nat) "analysis:x" 42 1000 5000 999).1
      (by omega),
   ((ttl_correctness (emptyStore Nat) "analysis:x" 42 1000 5000 1000).2
      (by omega)).1⟩

/-! ## Single-flight orchestrator
Modelled from the spec: the backend orchestrator is not under src; section
4.2 gives the per-key state machine Idle, InFlight, then settled and
removed, with callers attaching to the pending outcome of an in-flight key
and all waiters released with the same value or error. Concurrency is
modelled as an interleaving of atomic call and settle events; the number of
computeFn invocations is tracked per key. -/

structure SFState (K C O : Type) where
  inflight : K → Option (List C)
  invocations : K → Nat
  results : C → Option O

def SFState.init (K C O : Type) : SFState K C O :=
  { inflight := fun _ => none, invocations := fun _ => 0,
    results := fun _ => none }

inductive SFEvent (K C O : Type) where
  | call (k : K) (c : C)
  | settle (k : K) (o : O)

/-- Modelled from the spec: one atomic step. A call on an idle key starts
computeFn (one invocation) and registers the caller; a call on an in-flight
key attaches the caller to the pending outcome; a settle releases every
waiter with the same outcome and removes the key from the in-flight table. -/
def sfStep {K C O : Type} [DecidableEq K] [DecidableEq C]
    (s : SFState K C O) : SFEvent K C O → SFState K C O
  | .call k c =>
    match s.inflight k with
    | none =>
      { inflight := Function.update s.inflight k (some [c])
        invocations := Function.update s.invocations k (s.invocations k + 1)
        results := s.results }
    | some ws =>
      { s with inflight := Function.update s.inflight k (some (ws ++ [c])) }
  | .settle k o =>
    match s.inflight k with
    | none => s
    | some ws =>
      { inflight := Function.update s.inflight k none
        invocations := s.invocations
        results := fun c => if c ∈ ws then some o else s.results c }

def sfRun {K C O : Type} [DecidableEq K] [DecidableEq C] (s : SFState K C O)
    (events : List (SFEvent K C O)) : SFState K C O :=
  events.foldl sfStep s

lemma sfRun_attach {K C O : Type} [DecidableEq K] [DecidableEq C] (k : K) :
    ∀ (cs : List C) (s : SFState K C O) (ws : List C),
      s.inflight k = some ws →
      (sfRun s (cs.map (SFEvent.call k))).inflight k = some (ws ++ cs) ∧
      (sfRun s (cs.map (SFEvent.call k))).invocations = s.invocations ∧
      (sfRun s (cs.map (SFEvent.call k))).results = s.results := by
  intro cs
  induction cs with
  | nil =>
    intro s ws hws
    simpa [sfRun] using hws
  | cons c rest ih =>
    intro s ws hws
    have hstep : sfStep s (SFEvent.call k c) =
        { s with inflight := Function.update s.inflight k (some (ws ++ [c])) } := by
      simp only [sfStep]
      rw [hws]
    have hmid : (sfStep s (SFEvent.call k c)).inflight k = some (ws ++ [c]) := by
      rw [hstep]
      exact Function.update_same _ _ _
    have hrest := ih (sfStep s (SFEvent.call k c)) (ws ++ [c]) hmid
    have hrun : sfRun s ((c :: rest).map (SFEvent.call k)) =
        sfRun (sfStep s (SFEvent.call k c)) (rest.map (SFEvent.call k)) := rfl
    refine ⟨?_, ?_, ?_⟩
    · rw [hrun, hrest.1]
      simp
    · rw [hrun, hrest.2.1, hstep]
    · rw [hrun, hrest.2.2, hstep]

/-- C1: K concurrent execute calls with the same idle key, in any order,
invoke computeFn exactly once for the group, and when the computation
settles every one of the K callers receives the identical outcome (value or
error alike); the key then leaves the in-flight table. -/
theorem single_flight {K C O : Type} [DecidableEq K] [DecidableEq C]
    (s : SFState K C O) (k : K) (cs : List C) (o : O)
    (hidle : s.inflight k = none) (hne : cs ≠ []) :
    (sfRun s (cs.map (SFEvent.call k) ++ [SFEvent.settle k o])).invocations k
      = s.invocations k + 1 ∧
    (∀ c ∈ cs,
      (sfRun s (cs.map (SFEvent.call k) ++ [SFEvent.settle k o])).results c
        = some o) ∧
    (sfRun s (cs.map (SFEvent.call k) ++ [SFEvent.settle k o])).inflight k
      = none := by
  obtain ⟨c0, rest, rfl⟩ : ∃ c0 rest, cs = c0 :: rest := by
    cases cs with
    | nil => exact absurd rfl hne
    | cons c0 rest => exact ⟨c0, rest, rfl⟩
  have hstep0 : sfStep s (SFEvent.call k c0) =
      { inflight := Function.update s.inflight k (some [c0])
        invocations := Function.update s.invocations k (s.invocations k + 1)
        results := s.results } := by
    simp only [sfStep]
    rw [hidle]
  have hmid : (sfStep s (SFEvent.call k c0)).inflight k = some [c0] := by
    rw [hstep0]
    exact Function.update_same _ _ _
  have hattach := sfRun_attach k rest (sfStep s (SFEvent.call k c0)) [c0] hmid
  set sB := sfRun (sfStep s (SFEvent.call k c0)) (rest.map (SFEvent.call k))
    with hsB
  have hrunB : sfRun s ((c0 :: rest).map (SFEvent.call k) ++
      [SFEvent.settle k o]) = sfStep sB (SFEvent.settle k o) := by
    unfold sfRun
    rw [List.map_cons, List.foldl_append]
    rfl
  have hBin : sB.inflight k = some (c0 :: rest) := by
    rw [hattach.1]
    rfl
  have hsettle : sfStep sB (SFEvent.settle k o) =
      { inflight := Function.update sB.inflight k none
        invocations := sB.invocations
        results := fun c => if c ∈ c0 :: rest then some o else sB.results c } := by
    simp only [sfStep]
    rw [hBin]
  refine ⟨?_, ?_, ?_⟩
  · rw [hrunB, hsettle]
    show sB.invocations k = s.invocations k + 1
    rw [hattach.2.1, hstep0]
    exact Function.update_same _ _ _
  · intro c hc
    rw [hrunB, hsettle]
    show (if c ∈ c0 :: rest then some o else sB.results c) = some o
    rw [if_pos hc]
  · rw [hrunB, hsettle]
    exact Function.update_same _ _ _

/-- Witness for C1: three concurrent callers 1, 2, 3 on the idle key 7 of
the initial state; one invocation is recorded and each caller receives
outcome 99. -/
theorem single_flight_witness :
    (sfRun (SFState.init Nat Nat Nat)
      (([1, 2, 3] : List Nat).map (SFEvent.call 7) ++ [SFEvent.settle 7 99])).invocations 7
      = (SFState.init Nat Nat Nat).invocations 7 + 1 ∧
    (∀ c ∈ ([1, 2, 3] : List Nat),
      (sfRun (SFState.init Nat Nat Nat)
        (([1, 2, 3] : List Nat).map (SFEvent.call 7) ++ [SFEvent.settle 7 99])).results c
        = some 99) :=
  ⟨(single_flight (SFState.init Nat Nat Nat) 7 [1, 2, 3] 99 rfl
      (by simp)).1,
   (single_flight (SFState.init Nat Nat Nat) 7 [1, 2, 3] 99 rfl
      (by simp)).2.1⟩

/-! ## Pairwise comparison generation
Modelled from the spec: the backend pairwise comparator is not under src;
section 2 runs the comparator on every unordered pair of the analyzed
articles, and section 3 records for each pair the two article ids and the
absolute score difference. -/

def allPairs {α : Type} : List α → List (α × α)
  | [] => []
  | x :: xs => xs.map (fun y => (x, y)) ++ allPairs xs

structure PairwiseComparison where
  articleAId : String
  articleBId : String
  leaningDifference : ℚ
deriving DecidableEq, Repr

/-- Modelled from the spec: one pairwise comparison, keeping the locally
computed fields the pair-count claim is about. -/
def comparePair (a b : ArticleAnalysis) : PairwiseComparison :=
  { articleAId := a.article_id
    articleBId := b.article_id
    leaningDifference :=
      |a.political_leaning.score - b.political_leaning.score| }

/-- Modelled from the spec: compareMany runs the comparator on every
unordered pair of the analyzed articles. -/
def compareMany (articles : List ArticleAnalysis) : List PairwiseComparison :=
  (allPairs articles).map (fun p => comparePair p.1 p.2)

lemma allPairs_length_two {α : Type} (l : List α) :
    2 * (allPairs l).length = l.length * (l.length - 1) := by
  induction l with
  | nil => rfl
  | cons x xs ih =>
    simp only [allPairs, List.length_append, List.length_map, List.length_cons]
    cases h : xs.length with
    | zero =>
      rw [h] at ih
      omega
    | succ m =>
      rw [h] at ih
      have e1 : 2 * (m + 1 + (allPairs xs).length) =
          2 * (m + 1) + 2 * (allPairs xs).length := by ring
      rw [e1, ih]
      have e2 : m + 1 - 1 = m := rfl
      have e3 : m + 1 + 1 - 1 = m + 1 := rfl
      rw [e2, e3]
      ring

lemma mem_allPairs {α : Type} {p : α × α} :
    ∀ {l : List α}, p ∈ allPairs l → p.1 ∈ l ∧ p.2 ∈ l := by
  intro l
  induction l with
  | nil => intro h; cases h
  | cons x xs ih =>
    intro h
    simp only [allPairs] at h
    rcases List.mem_append.mp h with h1 | h2
    · obtain ⟨y, hy, hpy⟩ := List.mem_map.mp h1
      cases hpy
      exact ⟨List.mem_cons_self _ _, List.mem_cons_of_mem _ hy⟩
    · have hm := ih h2
      exact ⟨List.mem_cons_of_mem _ hm.1, List.mem_cons_of_mem _ hm.2⟩

lemma fst_ne_snd_of_mem_allPairs {α : Type} {p : α × α} :
    ∀ {l : List α}, l.Nodup → p ∈ allPairs l → p.1 ≠ p.2 := by
  intro l
  induction l with
  | nil => intro _ h; cases h
  | cons x xs ih =>
    intro hnd h
    simp only [allPairs] at h
    rcases List.mem_append.mp h with h1 | h2
    · obtain ⟨y, hy, hpy⟩ := List.mem_map.mp h1
      cases hpy
      intro hxy
      exact (List.nodup_cons.mp hnd).1 ((show x = y from hxy) ▸ hy)
    · exact ih (List.nodup_cons.mp hnd).2 h2

lemma countP_fiber_eq_one {α β : Type} [DecidableEq β] (f : α → β) :
    ∀ (xs : List α) (b : α), (xs.map f).Nodup → b ∈ xs →
      xs.countP (fun y => decide (f y = f b)) = 1 := by
  intro xs
  induction xs with
  | nil => intro b _ hb; cases hb
  | cons z zs ih =>
    intro b hnd hb
    rw [List.map_cons] at hnd
    have hnd' := List.nodup_cons.mp hnd
    rw [List.countP_cons]
    rcases List.mem_cons.mp hb with rfl | hbzs
    · have hz : zs.countP (fun y => decide (f y = f b)) = 0 := by
        rw [List.countP_eq_zero]
        intro y hy
        simp only [decide_eq_true_eq]
        intro hfy
        exact hnd'.1 (hfy ▸ List.mem_map_of_mem f hy)
      rw [hz]
      simp
    · have hfz : ¬ (f z = f b) := by
        intro hzb
        exact hnd'.1 (hzb ▸ List.mem_map_of_mem f hbzs)
      rw [ih b hnd'.2 hbzs]
      simp [hfz]

lemma countP_allPairs_unordered {α β : Type} [DecidableEq β] (f : α → β) :
    ∀ (l : List α), (l.map f).Nodup → ∀ a ∈ l, ∀ b ∈ l, f a ≠ f b →
      (allPairs l).countP
        (fun p => decide ((f p.1 = f a ∧ f p.2 = f b) ∨
          (f p.1 = f b ∧ f p.2 = f a))) = 1 := by
  intro l
  induction l with
  | nil => intro _ a ha; cases ha
  | cons x xs ih =>
    intro hnd a ha b hb hab
    rw [List.map_cons] at hnd
    have hx := (List.nodup_cons.mp hnd).1
    have hxs := (List.nodup_cons.mp hnd).2
    simp only [allPairs]
    rw [List.countP_append, List.countP_map]
    rcases List.mem_cons.mp ha with rfl | haxs
    · have hbxs : b ∈ xs := by
        rcases List.mem_cons.mp hb with rfl | h
        · exact absurd rfl hab
        · exact h
      have hmap : xs.countP ((fun p : α × α =>
            decide ((f p.1 = f a ∧ f p.2 = f b) ∨
              (f p.1 = f b ∧ f p.2 = f a))) ∘ (fun y => (a, y)))
          = xs.countP (fun y => decide (f y = f b)) := by
        apply List.countP_congr
        intro y hy
        simp only [Function.comp_apply, decide_eq_true_eq]
        constructor
        · rintro (⟨h1, h2⟩ | ⟨h1, h2⟩)
          · exact h2
          · exact absurd h1 hab
        · intro h
          exact Or.inl ⟨by trivial, h⟩
      rw [hmap, countP_fiber_eq_one f xs b hxs hbxs]
      have hzero : (allPairs xs).countP
          (fun p => decide ((f p.1 = f a ∧ f p.2 = f b) ∨
            (f p.1 = f b ∧ f p.2 = f a))) = 0 := by
        rw [List.countP_eq_zero]
        intro p hp
        have hmem := mem_allPairs hp
        simp only [decide_eq_true_eq]
        rintro (⟨h1, _⟩ | ⟨_, h2⟩)
        · exact hx (h1 ▸ List.mem_map_of_mem f hmem.1)
        · exact hx (h2 ▸ List.mem_map_of_mem f hmem.2)
      rw [hzero]
    · rcases List.mem_cons.mp hb with rfl | hbxs
      · have hmap : xs.countP ((fun p : α × α =>
              decide ((f p.1 = f a ∧ f p.2 = f b) ∨
                (f p.1 = f b ∧ f p.2 = f a))) ∘ (fun y => (b, y)))
            = xs.countP (fun y => decide (f y = f a)) := by
          apply List.countP_congr
          intro y hy
          simp only [Function.comp_apply, decide_eq_true_eq]
          constructor
          · rintro (⟨h1, h2⟩ | ⟨h1, h2⟩)
            · exact absurd (h1 ▸ List.mem_map_of_mem f haxs) hx
            · exact h2
          · intro h
            exact Or.inr ⟨by trivial, h⟩
        rw [hmap, countP_fiber_eq_one f xs a hxs haxs]
        have hzero : (allPairs xs).countP
            (fun p => decide ((f p.1 = f a ∧ f p.2 = f b) ∨
              (f p.1 = f b ∧ f p.2 = f a))) = 0 := by
          rw [List.countP_eq_zero]
          intro p hp
          have hmem := mem_allPairs hp
          simp only [decide_eq_true_eq]
          rintro (⟨_, h2⟩ | ⟨h1, _⟩)
          · exact hx (h2 ▸ List.mem_map_of_mem f hmem.2)
          · exact hx (h1 ▸ List.mem_map_of_mem f hmem.1)
        rw [hzero]
      · have hmap : xs.countP ((fun p : α × α =>
              decide ((f p.1 = f a ∧ f p.2 = f b) ∨
                (f p.1 = f b ∧ f p.2 = f a))) ∘ (fun y => (x, y))) = 0 := by
          rw [List.countP_eq_zero]
          intro y hy
          simp only [Function.comp_apply, decide_eq_true_eq]
          rintro (⟨h1, _⟩ | ⟨h1, _⟩)
          · exact hx (h1 ▸ List.mem_map_of_mem f haxs)
          · exact hx (h1 ▸ List.mem_map_of_mem f hbxs)
        rw [hmap, ih hxs a haxs b hbxs hab]

/-- C3: for articles with pairwise distinct ids, compareMany produces
exactly N(N-1)/2 pairwise comparisons; every produced comparison is between
two distinct articles of the input; and each unordered pair of distinct
articles appears exactly once, counting both orientations. -/
theorem compareMany_pair_count (l : List ArticleAnalysis)
    (hids : (l.map (·.article_id)).Nodup) :
    (compareMany l).length = l.length * (l.length - 1) / 2 ∧
    (∀ c ∈ compareMany l, ∃ a ∈ l, ∃ b ∈ l,
      a.article_id ≠ b.article_id ∧ c = comparePair a b) ∧
    (∀ a ∈ l, ∀ b ∈ l, a.article_id ≠ b.article_id →
      (compareMany l).countP
        (fun c => decide ((c.articleAId = a.article_id ∧
            c.articleBId = b.article_id) ∨
          (c.articleAId = b.article_id ∧
            c.articleBId = a.article_id))) = 1) := by
  have hl : l.Nodup := List.Nodup.of_map _ hids
  refine ⟨?_, ?_, ?_⟩
  · have h2 := allPairs_length_two l
    unfold compareMany
    rw [List.length_map]
    omega
  · intro c hc
    obtain ⟨p, hp, hpc⟩ := List.mem_map.mp hc
    have hmem := mem_allPairs hp
    have hne := fst_ne_snd_of_mem_allPairs hl hp
    refine ⟨p.1, hmem.1, p.2, hmem.2, ?_, hpc.symm⟩
    intro hid
    exact hne (List.inj_on_of_nodup_map hids hmem.1 hmem.2 hid)
  · intro a ha b hb hab
    unfold compareMany
    rw [List.countP_map]
    have := countP_allPairs_unordered (fun x : ArticleAnalysis => x.article_id)
      l hids a ha b hb hab
    convert this using 1

/-- Witness for C3: the three scenario articles have distinct ids and yield
exactly three pairwise comparisons. -/
theorem compareMany_pair_count_witness :
    (compareMany scenarioArticles).length =
      scenarioArticles.length * (scenarioArticles.length - 1) / 2 :=
  (compareMany_pair_count scenarioArticles (by decide)).1

end Spectrum
